import Mathlib

/-!
Verification of the AWS Lambda SES e-mail forwarder (`index.js`).

The JavaScript source is shallowly embedded.  JavaScript strings are
represented as `List Char`.  Each regular-expression operation of the source
is translated into a deterministic scanner whose behaviour coincides with the
ECMAScript backtracking semantics of the concrete pattern; the derivation is
documented at each definition.  Recursions that consume a varying number of
characters per step use an explicit fuel argument (always instantiated with
`length + 1`, which is sufficient since every step consumes at least one
character); this keeps every definition computable by the kernel.

Key JavaScript facts used throughout:
 * without the `s` flag, `.` matches every character except the four line
   terminators `\n`, `\r`, U+2028, U+2029;
 * with the `m` flag, `^` matches at index 0 and immediately after any of the
   four line terminators (in particular between `\r` and `\n`);
 * `\s` matches the whitespace set given in `isJsWs` below;
 * `undefined` coerced to a string by `+` yields `"undefined"`.
-/

namespace SESForwarder

/-- Convert a string literal into the `List Char` representation used for
JavaScript strings throughout this development. -/
def str (s : String) : List Char := s.data

/-- The four JavaScript line terminators: `\n`, `\r`, U+2028, U+2029. -/
def isLineTerm (c : Char) : Bool :=
  c == '\n' || c == '\r' || c.val == 0x2028 || c.val == 0x2029

/-- Characters matched by `.` in a JavaScript regex without the `s` flag. -/
def jsDot (c : Char) : Bool := !(isLineTerm c)

/-- Characters matched by the JavaScript `\s` class (also the set removed by
`String.prototype.trim`). -/
def isJsWs (c : Char) : Bool :=
  c == '\t' || c == '\n' || c.val == 0x0b || c.val == 0x0c || c == '\r' ||
  c == ' ' || c.val == 0xa0 || c.val == 0x1680 ||
  decide (0x2000 ≤ c.val ∧ c.val ≤ 0x200a) ||
  c.val == 0x2028 || c.val == 0x2029 || c.val == 0x202f || c.val == 0x205f ||
  c.val == 0x3000 || c.val == 0xfeff

/-- ASCII lowercasing, as performed by `toLowerCase` and by the regex `i`
flag on the ASCII header names and addresses this program manipulates. -/
def lowerChar (c : Char) : Char :=
  if 'A' ≤ c ∧ c ≤ 'Z' then Char.ofNat (c.toNat + 32) else c

/-- `toLowerCase` on a whole string. -/
def lowerStr (s : List Char) : List Char := s.map lowerChar

/-- Case-insensitive prefix test: does `cs` start with the pattern `p`? -/
def startsWithCI : List Char → List Char → Bool
  | [], _ => true
  | _ :: _, [] => false
  | p :: ps, c :: cs => (lowerChar p == lowerChar c) && startsWithCI ps cs

/-! ## The header/body split of `processMessage` (index.js line 160)

`data.emailData.match(/^((?:.+\r?\n)*)(\r?\n(?:.*\s+)*)/m)`.

Group 1 (`(?:.+\r?\n)*`) greedily consumes complete non-empty lines: a
non-empty run of `.`-characters terminated by `\n` or `\r\n`.  Each
iteration is deterministic because a `.`-run can contain neither `\r` nor
`\n`, so `.+` cannot backtrack into a successful `\r?\n`.  After the maximal
run of complete lines, group 2 requires a blank line `\r?\n`; if that fails,
every shorter choice of group 1 fails as well (the text at the end of `k`
complete lines starts with a `.`-character, on which `\r?\n` cannot match),
so the whole pattern fails at this start position and the engine moves on to
the next `^` anchor.  Group 2's tail `(?:.*\s+)*` greedily matches exactly
the prefix of the remaining text that extends through its last `\s`
character (every character that is not a line terminator is matched by `.`,
so the decomposition into `.`-runs followed by non-empty `\s`-runs succeeds
exactly for prefixes ending in a `\s` character, and greediness selects the
longest one). -/

/-- One iteration of `(?:.+\r?\n)*`: a non-empty `.`-run followed by `\n` or
`\r\n`.  Returns the consumed line and the remaining text. -/
def takeHeaderLine (cs : List Char) : Option (List Char × List Char) :=
  let run := cs.takeWhile jsDot
  let rest := cs.dropWhile jsDot
  if run.isEmpty then none
  else
    match rest with
    | '\r' :: '\n' :: r => some (run ++ ['\r', '\n'], r)
    | '\n' :: r => some (run ++ ['\n'], r)
    | _ => none

/-- Greedy `(?:.+\r?\n)*`: the maximal run of complete non-empty lines.
The fuel argument is always called with at least `cs.length`. -/
def takeHeaderLines : Nat → List Char → List Char × List Char
  | 0, cs => ([], cs)
  | fuel + 1, cs =>
    match takeHeaderLine cs with
    | none => ([], cs)
    | some (ln, rest) =>
      let p := takeHeaderLines fuel rest
      (ln ++ p.1, p.2)

/-- Length of the prefix of `cs` extending through its last `\s` character
(0 when `cs` contains no `\s` character): the text matched by the greedy
`(?:.*\s+)*`. -/
def wsTailLen : List Char → Nat
  | [] => 0
  | c :: cs =>
    let n := wsTailLen cs
    if n ≠ 0 then n + 1 else if isJsWs c then 1 else 0

/-- The text matched by `(?:.*\s+)*` at the start of `cs`. -/
def wsTail (cs : List Char) : List Char := cs.take (wsTailLen cs)

/-- Attempt the split regex at one `^` anchor position: returns
`(group 1, group 2)` on success. -/
def matchAt (fuel : Nat) (cs : List Char) : Option (List Char × List Char) :=
  let p := takeHeaderLines fuel cs
  match p.2 with
  | '\r' :: '\n' :: r => some (p.1, '\r' :: '\n' :: wsTail r)
  | '\n' :: r => some (p.1, '\n' :: wsTail r)
  | _ => none

/-- Advance to the next `^` anchor: drop up to and including the first line
terminator. -/
def dropToNextAnchor : List Char → Option (List Char)
  | [] => none
  | c :: rest => if isLineTerm c then some rest else dropToNextAnchor rest

/-- First `^` anchor position (scanning left to right) at which the split
regex matches, as performed by `String.prototype.match`. -/
def findMatch : Nat → List Char → Option (List Char × List Char)
  | 0, _ => none
  | fuel + 1, cs =>
    match matchAt (cs.length + 1) cs with
    | some r => some r
    | none =>
      match dropToNextAnchor cs with
      | none => none
      | some rest => findMatch fuel rest

/-- Lines 160–162 of index.js: `header` is group 1 when the match succeeded
with a non-empty group 1 (JavaScript: `match && match[1]` — the empty string
is falsy) and the whole input otherwise; `body` is group 2 when non-empty
and the empty string otherwise. -/
def splitMessage (cs : List Char) : List Char × List Char :=
  match findMatch (cs.length + 1) cs with
  | none => (cs, [])
  | some (g1, g2) =>
    (if g1.isEmpty then cs else g1, if g2.isEmpty then [] else g2)

/-! ## Header rewriting (index.js lines 164–217)

Each regex replacement below operates on the header blob.  The scanners walk
the text character by character carrying an `anchor` flag that records
whether the current position is a `^` anchor (index 0 or immediately after a
line terminator), exactly as the `m`-flag scanning of `replace`/`match`
proceeds.  A global (`g`) replacement resumes scanning immediately after the
replaced span. -/

/-- `\r?\n` at the start of the text: the consumed newline and the rest. -/
def nlSplit (cs : List Char) : Option (List Char × List Char) :=
  match cs with
  | '\r' :: '\n' :: r => some (['\r', '\n'], r)
  | '\n' :: r => some (['\n'], r)
  | _ => none

/-- `/^reply-to:[\t ]?/mi.test(header)` (line 165): since `[\t ]?` may match
the empty string, the test holds exactly when some `^` anchor position
starts, case-insensitively, with `reply-to:`. -/
def anyLineStartCI (name : List Char) : Bool → List Char → Bool
  | _, [] => false
  | anchor, c :: rest =>
    (anchor && startsWithCI name (c :: rest)) || anyLineStartCI name (isLineTerm c) rest

/-- Test of line 165 applied from the start of the header. -/
def replyToExists (header : List Char) : Bool :=
  anyLineStartCI (str "reply-to:") true header

/-- Greedy iterations of `(?:\r?\n\s+.*)*` (the folded-continuation part of
the `From:` patterns on lines 166 and 177): each iteration is a newline,
then a maximal non-empty `\s`-run, then a maximal `.`-run.  Returns the list
of consumed iterations and the remaining text.  (Shrinking of a maximal
`\s`-run under backtracking can only matter when the run contains an inner
newline, i.e. when the header contains a whitespace-only line; headers
produced by the split above consist of non-empty `.`-lines, where this does
not arise.) -/
def foldedIters : Nat → List Char → List (List Char) × List Char
  | 0, cs => ([], cs)
  | fuel + 1, cs =>
    match nlSplit cs with
    | none => ([], cs)
    | some (nl, r) =>
      let w := r.takeWhile isJsWs
      if w.isEmpty then ([], cs)
      else
        let r2 := r.dropWhile isJsWs
        let d := r2.takeWhile jsDot
        let r3 := r2.dropWhile jsDot
        let p := foldedIters fuel r3
        ((nl ++ w ++ d) :: p.1, p.2)

/-- Leading `\r?\n` of a folded-continuation iteration (every iteration
starts with one). -/
def leadNl (item : List Char) : List Char :=
  match item with
  | '\r' :: '\n' :: _ => ['\r', '\n']
  | '\n' :: _ => ['\n']
  | _ => []

/-- `[\t ]?` after a header name: greedily skip one tab or space. -/
def skipOneTabSpace (cs : List Char) : List Char :=
  match cs with
  | c :: rest => if c == '\t' || c == ' ' then rest else cs
  | [] => []

/-- Group 1 of `/^from:[\t ]?(.*(?:\r?\n\s+.*)*\r?\n)/mi` (line 166),
evaluated with `cs` positioned right after a case-insensitive `from:`.
The final `\r?\n` is mandatory; when it is missing after the greedy
iterations the engine backtracks by giving up the last iteration, whose own
leading newline then satisfies the final `\r?\n`.  If there is no iteration
to give up, the pattern fails at this anchor. -/
def fromValueAt (cs : List Char) : Option (List Char) :=
  let cs1 := skipOneTabSpace cs
  let d0 := cs1.takeWhile jsDot
  let r1 := cs1.dropWhile jsDot
  let p := foldedIters (r1.length + 1) r1
  match nlSplit p.2 with
  | some (nl, _) => some (d0 ++ p.1.flatten ++ nl)
  | none =>
    match p.1.getLast? with
    | some lastIt => some (d0 ++ p.1.dropLast.flatten ++ leadNl lastIt)
    | none => none

/-- `header.match(/^from:[\t ]?(.*(?:\r?\n\s+.*)*\r?\n)/mi)`: first anchor,
scanning left to right, where the whole pattern succeeds. -/
def findFromValue : Bool → List Char → Option (List Char)
  | _, [] => none
  | anchor, c :: rest =>
    match (if anchor && startsWithCI (str "from:") (c :: rest) then
             fromValueAt ((c :: rest).drop 5) else none) with
    | some v => some v
    | none => findFromValue (isLineTerm c) rest

/-- First occurrence of the character `t` replaced by `repl`, as performed
by `String.prototype.replace` with a plain string pattern. -/
def replaceFirstCharWith (t : Char) (repl : List Char) : List Char → List Char
  | [] => []
  | c :: rest => if c == t then repl ++ rest else c :: replaceFirstCharWith t repl rest

/-- Suffix of a `.`-run after its last `>`. -/
def afterLastGt (run : List Char) : List Char :=
  (run.reverse.takeWhile (fun c => c != '>')).reverse

/-- `from.replace(/<(.*)>/, '')` (line 181): the first `<` that is followed
by a `>` later in the same line starts the match, which extends through the
last `>` of that line (greedy `.*` backtracking); the match is removed. -/
def stripAngleSpan : List Char → List Char
  | [] => []
  | c :: rest =>
    if c == '<' && (rest.takeWhile jsDot).contains '>' then
      afterLastGt (rest.takeWhile jsDot) ++ rest.dropWhile jsDot
    else
      c :: stripAngleSpan rest

/-- `String.prototype.trim`. -/
def trimStr (s : List Char) : List Char :=
  ((s.dropWhile isJsWs).reverse.dropWhile isJsWs).reverse

/-- JavaScript string coercion performed by `+`: `undefined` becomes the
text `undefined`. -/
def jsAsString : Option (List Char) → List Char
  | none => str "undefined"
  | some s => s

/-- The replacement callback of lines 178–187: with a configured
`fromEmail` the display name (angle-bracket part removed, trimmed) is kept
and `fromEmail` appended in angle brackets; otherwise the brackets are
defused (`<` once becomes `at `, `>` once removed) and
`data.originalRecipient` — never assigned anywhere in index.js, hence
`undefined` — is appended in angle brackets. -/
def replaceFromFn (fromEmail : List Char) (origRecipient : Option (List Char))
    (fromv : List Char) : List Char :=
  if fromEmail.isEmpty then
    str "From: " ++ replaceFirstCharWith '>' [] (replaceFirstCharWith '<' (str "at ") fromv) ++
      str " <" ++ jsAsString origRecipient ++ str ">"
  else
    str "From: " ++ trimStr (stripAngleSpan fromv) ++ str " <" ++ fromEmail ++ str ">"

/-- Group 1 of `/^from:[\t ]?(.*(?:\r?\n\s+.*)*)/mgi` (line 177) together
with the remaining text after the match.  No trailing newline is required
here, so the greedy iterations need no backtracking. -/
def fromCaptureAt (cs : List Char) : List Char × List Char :=
  let cs1 := skipOneTabSpace cs
  let d0 := cs1.takeWhile jsDot
  let r1 := cs1.dropWhile jsDot
  let p := foldedIters (r1.length + 1) r1
  (d0 ++ p.1.flatten, p.2)

/-- Is the position immediately after a match with the given capture a `^`
anchor?  (The span ends with the capture's last character, or with `:` /
the skipped blank when the capture is empty — never a line terminator in
that case.) -/
def anchorAfter (capture : List Char) : Bool :=
  match capture.getLast? with
  | some c => isLineTerm c
  | none => false

/-- The global From rewrite of lines 176–188. -/
def fromReplaceGo (fromEmail : List Char) (origRecipient : Option (List Char)) :
    Nat → Bool → List Char → List Char
  | 0, _, cs => cs
  | fuel + 1, anchor, cs =>
    match cs with
    | [] => []
    | c :: rest =>
      if anchor && startsWithCI (str "from:") (c :: rest) then
        let p := fromCaptureAt ((c :: rest).drop 5)
        replaceFromFn fromEmail origRecipient p.1 ++
          fromReplaceGo fromEmail origRecipient fuel (anchorAfter p.1) p.2
      else
        c :: fromReplaceGo fromEmail origRecipient fuel (isLineTerm c) rest

/-- Lines 176–188 applied from the start of the header. -/
def fromReplace (fromEmail : List Char) (origRecipient : Option (List Char))
    (header : List Char) : List Char :=
  fromReplaceGo fromEmail origRecipient (header.length + 1) true header

/-- The global Subject rewrite of lines 192–196:
`/^subject:[\t ]?(.*)/mgi` replaced by `Subject: ` + configured value +
capture. -/
def subjectReplaceGo (pre : List Char) : Nat → Bool → List Char → List Char
  | 0, _, cs => cs
  | fuel + 1, anchor, cs =>
    match cs with
    | [] => []
    | c :: rest =>
      if anchor && startsWithCI (str "subject:") (c :: rest) then
        let cs1 := skipOneTabSpace ((c :: rest).drop 8)
        let d := cs1.takeWhile jsDot
        let r := cs1.dropWhile jsDot
        str "Subject: " ++ pre ++ d ++ subjectReplaceGo pre fuel false r
      else
        c :: subjectReplaceGo pre fuel (isLineTerm c) rest

/-- The global To rewrite of line 201: `/^to:[\t ]?(.*)/mgi` replaced by
`To: ` + configured value. -/
def toReplaceGo (toEmail : List Char) : Nat → Bool → List Char → List Char
  | 0, _, cs => cs
  | fuel + 1, anchor, cs =>
    match cs with
    | [] => []
    | c :: rest =>
      if anchor && startsWithCI (str "to:") (c :: rest) then
        let cs1 := skipOneTabSpace ((c :: rest).drop 3)
        let r := cs1.dropWhile jsDot
        str "To: " ++ toEmail ++ toReplaceGo toEmail fuel false r
      else
        c :: toReplaceGo toEmail fuel (isLineTerm c) rest

/-- One match of `/^name:[\t ]?(.*)\r?\n/mgi` at a `^` anchor (the removal
regexes of lines 205, 208, 211, with `name:` standing for `return-path:`,
`sender:` or `message-id:`): the header name case-insensitively, a maximal
`.`-run (which absorbs the optional blank), then a mandatory newline.
Returns the text after the matched span. -/
def matchHeaderLineAt (name : List Char) (cs : List Char) : Option (List Char) :=
  if startsWithCI name cs then
    let afterName := cs.drop name.length
    let r := afterName.dropWhile jsDot
    match nlSplit r with
    | some (_, rest) => some rest
    | none => none
  else none

/-- Global removal scan for one of the single-line removal regexes. -/
def removeHeaderGo (name : List Char) : Nat → Bool → List Char → List Char
  | 0, _, cs => cs
  | fuel + 1, anchor, cs =>
    match cs with
    | [] => []
    | c :: rest =>
      match (if anchor then matchHeaderLineAt name cs else none) with
      | some rest2 => removeHeaderGo name fuel true rest2
      | none => c :: removeHeaderGo name fuel (isLineTerm c) rest

/-- `header.replace(/^name:[\t ]?(.*)\r?\n/mgi, '')` from the start of the
header. -/
def removeHeader (name : List Char) (header : List Char) : List Char :=
  removeHeaderGo name (header.length + 1) true header

/-- Greedy iterations of `(\s+.*\r?\n)*` in the DKIM removal regex
(line 217): maximal non-empty `\s`-run, maximal `.`-run, mandatory newline.
Returns the consumed text and the rest. -/
def dkimIters : Nat → List Char → List Char × List Char
  | 0, cs => ([], cs)
  | fuel + 1, cs =>
    let w := cs.takeWhile isJsWs
    if w.isEmpty then ([], cs)
    else
      let r1 := cs.dropWhile isJsWs
      let d := r1.takeWhile jsDot
      let r2 := r1.dropWhile jsDot
      match nlSplit r2 with
      | none => ([], cs)
      | some (nl, r3) =>
        let p := dkimIters fuel r3
        (w ++ d ++ nl ++ p.1, p.2)

/-- One match of `/^dkim-signature:[\t ]?.*\r?\n(\s+.*\r?\n)*/mgi` at an
anchor: the header line itself, then its folded continuation lines.
Returns the text after the matched span. -/
def matchDkimAt (cs : List Char) : Option (List Char) :=
  if startsWithCI (str "dkim-signature:") cs then
    let afterName := cs.drop 15
    let r := afterName.dropWhile jsDot
    match nlSplit r with
    | some (_, rest) => some (dkimIters (rest.length + 1) rest).2
    | none => none
  else none

/-- Global removal scan for the DKIM regex of line 217. -/
def dkimRemoveGo : Nat → Bool → List Char → List Char
  | 0, _, cs => cs
  | fuel + 1, anchor, cs =>
    match cs with
    | [] => []
    | c :: rest =>
      match (if anchor then matchDkimAt cs else none) with
      | some rest2 => dkimRemoveGo fuel true rest2
      | none => c :: dkimRemoveGo fuel (isLineTerm c) rest

/-- Line 217 applied from the start of the header. -/
def dkimRemove (header : List Char) : List Char :=
  dkimRemoveGo (header.length + 1) true header

/-! ## Configuration and `processMessage` (index.js lines 39–57, 159–221) -/

/-- The configuration object.  JavaScript falsiness of the optional string
fields (`fromEmail`, `subjectPrefix`, `toEmail`) is represented by the empty
list, which covers both the empty string and an absent field — the code only
ever tests truthiness and concatenates the value when it is truthy.  The
fields named `subjectPrefixVal` and `emailKeyPrefixVal` embed the source's
`subjectPrefix` and `emailKeyPrefix`. -/
structure EmailConfig where
  fromEmail : List Char
  subjectPrefixVal : List Char
  toEmail : List Char
  emailBucket : List Char
  emailKeyPrefixVal : List Char
  allowPlusSign : Bool
  forwardMapping : List (List Char × List (List Char))
deriving DecidableEq

/-- `processMessage` (lines 159–221) on the raw message text.
`originalRecipient` embeds `data.originalRecipient`; the `handler` pipeline
never assigns this field, so it is `none` in every run of the program. -/
def processMessage (cfg : EmailConfig) (originalRecipient : Option (List Char))
    (emailData : List Char) : List Char :=
  let sp := splitMessage emailData
  let body := sp.2
  let h0 := sp.1
  let h1 :=
    if replyToExists h0 then h0
    else
      match findFromValue true h0 with
      | some fromv => if fromv.isEmpty then h0 else h0 ++ str "Reply-To: " ++ fromv
      | none => h0
  let h2 := fromReplace cfg.fromEmail originalRecipient h1
  let h3 := if cfg.subjectPrefixVal.isEmpty then h2
            else subjectReplaceGo cfg.subjectPrefixVal (h2.length + 1) true h2
  let h4 := if cfg.toEmail.isEmpty then h3
            else toReplaceGo cfg.toEmail (h3.length + 1) true h3
  let h5 := removeHeader (str "return-path:") h4
  let h6 := removeHeader (str "sender:") h5
  let h7 := removeHeader (str "message-id:") h6
  let h8 := dkimRemove h7
  h8 ++ body

/-! ## `transformRecipients` (index.js lines 90–118) -/

/-- The lookup key computed on lines 95–97: lowercase, and with
`allowPlusSign` enabled `split('+')[0]`, i.e. everything from the first `+`
on — including any `@domain` part — is discarded. -/
def origEmailKeyOf (allowPlusSign : Bool) (origEmail : List Char) : List Char :=
  if allowPlusSign then (lowerStr origEmail).takeWhile (fun c => c != '+')
  else lowerStr origEmail

/-- `origEmailUser` of line 106: JavaScript `key.split('@')[0]`.  An absent
part and an empty part are identified (both are falsy, and the code only
tests truthiness). -/
def mappingUser (key : List Char) : List Char := (key.splitOn '@').headD []

/-- `origEmailDomain` of line 106: JavaScript `key.split('@')[1]`, the text
between the first and the second `@` of the key. -/
def mappingDomain (key : List Char) : List Char := ((key.splitOn '@').drop 1).headD []

/-- The destinations contributed by one original recipient (the body of the
`for` loop, lines 99–113): exact key, else `@domain` (`domain` must be
truthy), else the part before the first `@` (truthy), else the catch-all
`@`.  An `else if` chain: the first hit wins. -/
def forwardsFor (cfg : EmailConfig) (origEmail : List Char) : List (List Char) :=
  let key := origEmailKeyOf cfg.allowPlusSign origEmail
  match cfg.forwardMapping.lookup key with
  | some dests => dests
  | none =>
    match (if (mappingDomain key).isEmpty then none
           else cfg.forwardMapping.lookup (str "@" ++ mappingDomain key)) with
    | some dests => dests
    | none =>
      match (if (mappingUser key).isEmpty then none
             else cfg.forwardMapping.lookup (mappingUser key)) with
      | some dests => dests
      | none => (cfg.forwardMapping.lookup (str "@")).getD []

/-- `newRecipients.add(email)` on the JavaScript `Set` (insertion order is
preserved, duplicates are dropped). -/
def insertRecipient (acc : List (List Char)) (e : List Char) : List (List Char) :=
  if e ∈ acc then acc else acc ++ [e]

/-- `forEach(email => newRecipients.add(email))`. -/
def addNewRecipients (acc : List (List Char)) (dests : List (List Char)) : List (List Char) :=
  dests.foldl insertRecipient acc

/-- Lines 90–117: the resolved recipient list, i.e.
`Array.from(newRecipients)` after the loop over the original recipients. -/
def transformRecipients (cfg : EmailConfig) (recipients : List (List Char)) :
    List (List Char) :=
  recipients.foldl (fun acc orig => addNewRecipients acc (forwardsFor cfg orig)) []

/-! ## `parseEvent` (index.js lines 66–80) -/

/-- `Records[0].ses.mail`. -/
structure SESMail where
  messageId : List Char
deriving DecidableEq

/-- `Records[0].ses.receipt`. -/
structure SESReceipt where
  recipients : List (List Char)
deriving DecidableEq

/-- One entry of `event.Records`.  `eventSource` and `eventVersion` are
`Option` because the code guards them with `hasOwnProperty` / a strict
comparison against `undefined`. -/
structure SESRecord where
  eventSource : Option (List Char)
  eventVersion : Option (List Char)
  mail : SESMail
  receipt : SESReceipt
deriving DecidableEq

/-- The Lambda event; `records` is `none` when the event object has no
`Records` property. -/
structure LambdaEvent where
  records : Option (List SESRecord)
deriving DecidableEq

/-- The message of line 74. -/
def invalidEventMsg : List Char := str "Error: Received invalid SES message."

/-- Lines 66–80: the validation chain of line 68–73 followed by the
extraction of `ses.mail` and `ses.receipt.recipients`.  (`!hasOwnProperty ||
value !== lit` collapses to `value ≠ some lit` in the `Option` model.) -/
def parseEvent (event : Option LambdaEvent) :
    Except (List Char) (SESMail × List (List Char)) :=
  match event with
  | none => .error invalidEventMsg
  | some ev =>
    match ev.records with
    | none => .error invalidEventMsg
    | some rs =>
      match rs with
      | [r] =>
        if r.eventSource == some (str "aws:ses") && r.eventVersion == some (str "1.0") then
          .ok (r.mail, r.receipt.recipients)
        else .error invalidEventMsg
      | _ => .error invalidEventMsg

/-! ## The pipeline (`handler`, index.js lines 258–286)

The handler threads one mutable `data` object through the five steps and
reports the first failure.  The two external collaborators (S3 `GetObject`
and SES `SendRawEmail`) are passed as oracle functions.  The run is
instrumented with a trace of the stages that were actually entered,
recording for the fetch stage the S3 key used and for the send stage the
exact `SendRawEmailCommand` parameters. -/

/-- The message of line 147. -/
def fetchErrMsg : List Char := str "Error: Failed to load message body from S3."

/-- The message of line 241. -/
def sendErrMsg : List Char := str "Error: Email sending failed."

/-- The parameters handed to `SendRawEmailCommand` (lines 231–237).
`source` is `data.originalRecipient`, which may be `undefined` (`none`). -/
structure SendParams where
  destinations : List (List Char)
  source : Option (List Char)
  rawMessage : List Char
deriving DecidableEq

/-- Names of the five pipeline stages. -/
inductive StageTag where
  | validate | resolve | fetch | transform | send
deriving DecidableEq

/-- A trace event: one stage was entered (with the external-call arguments
it used, where applicable). -/
inductive StageEvt where
  | validate
  | resolve
  | fetch (key : List Char)
  | transform
  | send (p : SendParams)
deriving DecidableEq

/-- The stage a trace event belongs to. -/
def StageEvt.tag : StageEvt → StageTag
  | .validate => .validate
  | .resolve => .resolve
  | .fetch _ => .fetch
  | .transform => .transform
  | .send _ => .send

/-- The `data` bundle threaded through the steps.  `originalRecipient`
starts out absent (`none`) and — unlike in the upstream project this code
derives from — is never assigned by any step. -/
structure PipeData where
  config : EmailConfig
  event : Option LambdaEvent
  messageId : List Char
  recipients : List (List Char)
  originalRecipients : List (List Char)
  originalRecipient : Option (List Char)
  emailData : List Char

/-- Step 1, `parseEvent`: validates the event and stores
`ses.mail` / `ses.receipt.recipients` (lines 66–80). -/
def stepParseEvent (d : PipeData) : StageEvt × Except (List Char) PipeData :=
  (.validate,
    match parseEvent d.event with
    | .error e => .error e
    | .ok (mail, recs) => .ok { d with messageId := mail.messageId, recipients := recs })

/-- Step 2, `transformRecipients` (lines 90–118): never fails. -/
def stepTransformRecipients (d : PipeData) : StageEvt × Except (List Char) PipeData :=
  (.resolve, .ok { d with
    originalRecipients := d.recipients,
    recipients := transformRecipients d.config d.recipients })

/-- Step 3, `fetchMessage` (lines 128–149): reads
`emailKeyPrefix + messageId` from the S3 oracle; any failure becomes the
fetch error message. -/
def stepFetchMessage (s3 : List Char → Except (List Char) (List Char)) (d : PipeData) :
    StageEvt × Except (List Char) PipeData :=
  let key := d.config.emailKeyPrefixVal ++ d.messageId
  (.fetch key,
    match s3 key with
    | .ok bodyBytes => .ok { d with emailData := bodyBytes }
    | .error _ => .error fetchErrMsg)

/-- Step 4, `processMessage` (lines 159–221): never fails. -/
def stepProcessMessage (d : PipeData) : StageEvt × Except (List Char) PipeData :=
  (.transform, .ok { d with
    emailData := processMessage d.config d.originalRecipient d.emailData })

/-- Step 5, `sendMessage` (lines 230–246): submits
`(Destinations, Source, RawMessage)` to the SES oracle; any failure becomes
the send error message. -/
def stepSendMessage (ses : SendParams → Except (List Char) Unit) (d : PipeData) :
    StageEvt × Except (List Char) PipeData :=
  let params : SendParams := ⟨d.recipients, d.originalRecipient, d.emailData⟩
  (.send params,
    match ses params with
    | .ok _ => .ok d
    | .error _ => .error sendErrMsg)

/-- The `for (const step of steps) data = await step(data)` loop of
lines 276–278: runs the steps in order, stopping at the first rejection;
also returns the trace of entered stages. -/
def runSteps : List (PipeData → StageEvt × Except (List Char) PipeData) → PipeData →
    List StageEvt × Except (List Char) PipeData
  | [], d => ([], .ok d)
  | f :: fs, d =>
    let r := f d
    match r.2 with
    | .error e => ([r.1], .error e)
    | .ok d' =>
      let rest := runSteps fs d'
      (r.1 :: rest.1, rest.2)

/-- The fresh `data` object of lines 268–274. -/
def initialData (event : Option LambdaEvent) (cfg : EmailConfig) : PipeData :=
  { config := cfg, event := event, messageId := [], recipients := [],
    originalRecipients := [], originalRecipient := none, emailData := [] }

/-- The default step list of lines 260–266. -/
def pipelineSteps (s3 : List Char → Except (List Char) (List Char))
    (ses : SendParams → Except (List Char) Unit) :
    List (PipeData → StageEvt × Except (List Char) PipeData) :=
  [stepParseEvent, stepTransformRecipients, stepFetchMessage s3,
   stepProcessMessage, stepSendMessage ses]

/-- The Lambda handler (lines 258–286): `Except.ok ()` is
`callback(null, 'Success')`, `Except.error e` is `callback(error)`. -/
def handler (event : Option LambdaEvent) (cfg : EmailConfig)
    (s3 : List Char → Except (List Char) (List Char))
    (ses : SendParams → Except (List Char) Unit) :
    List StageEvt × Except (List Char) Unit :=
  let r := runSteps (pipelineSteps s3 ses) (initialData event cfg)
  (r.1, r.2.map fun _ => ())

/-! ## Specification-side definitions

These follow the wording of the specification (not the code) and are
compared against the embedded code by the claim theorems. -/

/-- The event shape required by the spec: exactly one record, source tag
`aws:ses`, schema version `1.0`. -/
def expectedEventShape (event : Option LambdaEvent) : Prop :=
  ∃ ev rs r, event = some ev ∧ ev.records = some rs ∧ rs = [r] ∧
    r.eventSource = some (str "aws:ses") ∧ r.eventVersion = some (str "1.0")

/-- Deduplication keeping the first occurrence of each element, in
insertion order — the spec's contract for the resolved recipient set. -/
def insertionDedup (l : List (List Char)) : List (List Char) :=
  l.foldl insertRecipient []

/-- A physical header line: a (possibly empty) run of `.`-characters
terminated by `\n` or `\r\n`. -/
def wfPhysicalLine (l : List Char) : Bool :=
  l.dropWhile jsDot == ['\n'] || l.dropWhile jsDot == ['\r', '\n']

/-- A non-empty header line: a non-empty run of `.`-characters terminated
by `\n` or `\r\n` (the shape matched by one iteration of `(?:.+\r?\n)*`). -/
def wfHeaderLine (l : List Char) : Bool :=
  !(l.takeWhile jsDot).isEmpty && wfPhysicalLine l

/-- A header name usable in the removal lemmas: non-empty, and every
character lowercases to a `.`-character (true of `return-path:`,
`sender:` and `message-id:`). -/
def nameOkForLine (name : List Char) : Bool :=
  !name.isEmpty && name.all (fun a => jsDot (lowerChar a))

/-- Is a trace event a send whose `Source` is defined?  Used to state that
every send of a run carries `Source: undefined`. -/
def sendSourceIsNone : StageEvt → Bool
  | .send p => p.source.isNone
  | _ => true

/-- The expected tag sequence of a complete run. -/
def fullStageTags : List StageTag :=
  [.validate, .resolve, .fetch, .transform, .send]

/-! ## Concrete instances used by the claim theorems and witnesses -/

/-- A configuration with no optional overrides and an empty mapping. -/
def cfgEmpty : EmailConfig :=
  { fromEmail := [], subjectPrefixVal := [], toEmail := [],
    emailBucket := str "your-s3-bucket-name",
    emailKeyPrefixVal := str "emailsPrefix/",
    allowPlusSign := true, forwardMapping := [] }

/-- A configuration with a single exact-key mapping. -/
def cfgPlus : EmailConfig :=
  { cfgEmpty with forwardMapping := [(str "user@domain.com", [str "dest@x.com"])] }

/-- A configuration exercising all four mapping tiers. -/
def cfgDemo : EmailConfig :=
  { cfgEmpty with forwardMapping :=
      [(str "info@example.com", [str "a@x.com", str "b@x.com"]),
       (str "@example.com", [str "c@x.com"]),
       (str "abuse", [str "d@x.com"]),
       (str "@", [str "e@x.com"])] }

/-- A configuration forwarding `info@example.com` to one destination. -/
def cfgInfo : EmailConfig :=
  { cfgEmpty with forwardMapping := [(str "info@example.com", [str "fwd@x.com"])] }

/-- Scenario 3 of the spec: a single `From:` header and no `Reply-To:`. -/
def msgJane : List Char := str "From: Jane <jane@example.com>\n\nHello\n"

/-- A message whose `Return-Path:` header has a folded continuation line. -/
def msgFoldedRP : List Char := str "Return-Path: a\n\tb\nSubject: hi\n\nBody\n"

/-- A valid single-record SES event addressed to `info@example.com`. -/
def evDemo : Option LambdaEvent :=
  some ⟨some [⟨some (str "aws:ses"), some (str "1.0"),
              ⟨str "mid1"⟩, ⟨[str "info@example.com"]⟩⟩]⟩

/-- An S3 oracle that returns `msgJane` for every key. -/
def s3Demo : List Char → Except (List Char) (List Char) := fun _ => .ok msgJane

/-- An S3 oracle that fails for every key. -/
def s3Down : List Char → Except (List Char) (List Char) :=
  fun _ => .error (str "NoSuchKey")

/-- A SES oracle that accepts every send. -/
def sesAccept : SendParams → Except (List Char) Unit := fun _ => .ok ()

/-- A SES oracle that rejects every send. -/
def sesReject : SendParams → Except (List Char) Unit :=
  fun _ => .error (str "Throttling")

/-- The message `msgJane` after the header rewrite performed by a real run
(no `fromEmail` override, `data.originalRecipient` never assigned). -/
def msgJaneOut : List Char :=
  str "From: Jane at jane@example.com <undefined>\nReply-To: Jane <jane@example.com>\n\nHello\n"

/-! ## Claim theorems -/

/-- C1: false of the code, and the code contradicts its own documentation
(index.js lines 22–26 promise that with `allowPlusSign` enabled
`example+test@example.com` is treated as `example@example.com`).  The key
computed on line 96 is `split('+')[0]` of the WHOLE lowercased address, so
`user+tag@domain.com` yields the key `user` — the `@domain` part is
discarded — and with the exact mapping `user@domain.com ↦ [dest@x.com]` the
plus-tagged address resolves to nothing while `user@domain.com` resolves to
`dest@x.com`. -/
theorem C1_plus_sign_drops_domain :
    transformRecipients cfgPlus [str "user+tag@domain.com"] = [] ∧
    transformRecipients cfgPlus [str "user@domain.com"] = [str "dest@x.com"] ∧
    origEmailKeyOf true (str "user+tag@domain.com") = str "user" := by
  refine ⟨by decide, by decide, by decide⟩

/-- C2: the Reply-To half of the scenario holds, but the rewritten `From:`
header is `From: Jane at jane@example.com <undefined>` rather than
`... <info@example.com>`: the `else` branch of lines 183–186 interpolates
`data.originalRecipient`, which no step of this program ever assigns, so it
is `undefined`.  The second conjunct shows the full pipeline run for an
inbound message to `info@example.com`: the transform stage passes
`originalRecipient = none` and the sent raw message contains
`<undefined>`. -/
theorem C2_from_rewrite_interpolates_undefined :
    processMessage cfgEmpty none msgJane = msgJaneOut ∧
    msgJaneOut ≠
      str "From: Jane at jane@example.com <info@example.com>\nReply-To: Jane <jane@example.com>\n\nHello\n" ∧
    (handler evDemo cfgInfo s3Demo sesAccept).1 =
      [.validate, .resolve, .fetch (str "emailsPrefix/mid1"), .transform,
       .send ⟨[str "fwd@x.com"], none, msgJaneOut⟩] := by
  refine ⟨by decide, by decide, by decide⟩

/-- C3: false of the code.  In the successful run below the send stage is
reached and the `Source` parameter of the `SendRawEmailCommand` is
`undefined` (`none`) — not the original destination address
`info@example.com` — because `data.originalRecipient` is never assigned
(`sendMessage`, line 233, reads a field no step writes).  Every send event
of the trace carries `Source: undefined`. -/
theorem C3_send_source_is_undefined :
    (handler evDemo cfgInfo s3Demo sesAccept).2.isOk = true ∧
    StageEvt.send ⟨[str "fwd@x.com"], none, msgJaneOut⟩ ∈
      (handler evDemo cfgInfo s3Demo sesAccept).1 ∧
    ((handler evDemo cfgInfo s3Demo sesAccept).1.all sendSourceIsNone) = true ∧
    (none : Option (List Char)) ≠ some (str "info@example.com") := by
  refine ⟨by decide, by decide, by decide, by decide⟩

/-- C4, counterexample: splitting and re-concatenating is NOT the identity
on every byte sequence.  On `"\n"` the split regex matches with an empty
group 1, so `header` falls back to the whole input while `body` is group 2,
and the concatenation duplicates the newline; on `"A: b\n\nX"` the group-2
tail `(?:.*\s+)*` stops before the trailing `X` (no final whitespace), so
the `X` is lost. -/
theorem C4_split_concat_not_identity :
    (splitMessage (str "\n")).1 ++ (splitMessage (str "\n")).2 = str "\n\n" ∧
    (splitMessage (str "\n")).1 ++ (splitMessage (str "\n")).2 ≠ str "\n" ∧
    (splitMessage (str "A: b\n\nX")).1 ++ (splitMessage (str "A: b\n\nX")).2 =
      str "A: b\n\n" := by
  refine ⟨by decide, by decide, by decide⟩

/-- C5, counterexample: the removal regexes of lines 205–211 match one
physical line only (`(.*)` cannot cross a newline and, unlike the DKIM
regex of line 217, no `(\s+.*\r?\n)*` continuation suffix is present), so a
folded continuation line of a removed `Return-Path:` header survives: the
orphaned continuation `\tb` is still present in the output, while the claim
requires it to be deleted together with its owning header line. -/
theorem C5_folded_continuation_survives :
    processMessage cfgEmpty none msgFoldedRP = str "\tb\nSubject: hi\n\nBody\n" ∧
    processMessage cfgEmpty none msgFoldedRP ≠ str "Subject: hi\n\nBody\n" := by
  refine ⟨by decide, by decide⟩

/-- C6: the four lookup tiers are consulted in the strict order exact key,
`@domain`, bare local part, catch-all `@`; each conjunct states that when
every higher tier misses (exact key absent; `@domain` skipped because the
domain is falsy or its key absent; local part skipped likewise) the first
tier that hits supplies the whole contribution of the address, and the
final conjunct states that an address matching no tier contributes
nothing. -/
theorem C6_mapping_tier_precedence (cfg : EmailConfig) (orig key : List Char)
    (hkey : key = origEmailKeyOf cfg.allowPlusSign orig) :
    (∀ ds, cfg.forwardMapping.lookup key = some ds → forwardsFor cfg orig = ds) ∧
    (cfg.forwardMapping.lookup key = none →
      (mappingDomain key).isEmpty = false →
      ∀ ds, cfg.forwardMapping.lookup (str "@" ++ mappingDomain key) = some ds →
        forwardsFor cfg orig = ds) ∧
    (cfg.forwardMapping.lookup key = none →
      ((mappingDomain key).isEmpty = true ∨
        cfg.forwardMapping.lookup (str "@" ++ mappingDomain key) = none) →
      (mappingUser key).isEmpty = false →
      ∀ ds, cfg.forwardMapping.lookup (mappingUser key) = some ds →
        forwardsFor cfg orig = ds) ∧
    (cfg.forwardMapping.lookup key = none →
      ((mappingDomain key).isEmpty = true ∨
        cfg.forwardMapping.lookup (str "@" ++ mappingDomain key) = none) →
      ((mappingUser key).isEmpty = true ∨
        cfg.forwardMapping.lookup (mappingUser key) = none) →
      ∀ ds, cfg.forwardMapping.lookup (str "@") = some ds →
        forwardsFor cfg orig = ds) ∧
    (cfg.forwardMapping.lookup key = none →
      ((mappingDomain key).isEmpty = true ∨
        cfg.forwardMapping.lookup (str "@" ++ mappingDomain key) = none) →
      ((mappingUser key).isEmpty = true ∨
        cfg.forwardMapping.lookup (mappingUser key) = none) →
      cfg.forwardMapping.lookup (str "@") = none →
      forwardsFor cfg orig = []) := by
  subst hkey
  refine ⟨?_, ?_, ?_, ?_, ?_⟩
  · intro ds h
    simp [forwardsFor, h]
  · intro h0 hdom ds h
    simp [forwardsFor, h0, hdom, h]
  · intro h0 hdom huser ds h
    rcases hdom with hdom | hdom <;>
      simp [forwardsFor, h0, hdom, huser, h]
  · intro h0 hdom huser ds h
    rcases hdom with hdom | hdom <;> rcases huser with huser | huser <;>
      simp [forwardsFor, h0, hdom, huser, h]
  · intro h0 hdom huser hcatch
    rcases hdom with hdom | hdom <;> rcases huser with huser | huser <;>
      simp [forwardsFor, h0, hdom, huser, hcatch]

/-- C6 witness: for `sales@example.com` under `cfgDemo` the exact tier
misses and the domain wildcard `@example.com` supplies the contribution. -/
theorem C6_mapping_tier_precedence_witness :
    forwardsFor cfgDemo (str "sales@example.com") = [str "c@x.com"] := by
  exact (C6_mapping_tier_precedence cfgDemo (str "sales@example.com") _ rfl).2.1
    (by decide) (by decide) _ (by decide)

/-- Membership in a JavaScript-`Set` insertion. -/
theorem mem_insertRecipient (acc : List (List Char)) (e x : List Char) :
    x ∈ insertRecipient acc e ↔ x ∈ acc ∨ x = e := by
  unfold insertRecipient
  by_cases he : e ∈ acc
  · rw [if_pos he]
    constructor
    · exact Or.inl
    · rintro (hx | rfl)
      · exact hx
      · exact he
  · rw [if_neg he]
    simp [List.mem_append]

/-- A `Set` insertion preserves the no-duplicates invariant. -/
theorem nodup_insertRecipient (acc : List (List Char)) (e : List Char)
    (h : acc.Nodup) : (insertRecipient acc e).Nodup := by
  unfold insertRecipient
  by_cases he : e ∈ acc
  · rw [if_pos he]
    exact h
  · rw [if_neg he]
    simp [List.nodup_append, h, he]

/-- Folding `Set` insertions preserves the no-duplicates invariant. -/
theorem nodup_addNewRecipients :
    ∀ (l : List (List Char)) (acc : List (List Char)), acc.Nodup →
      (addNewRecipients acc l).Nodup
  | [], _, h => h
  | e :: l, acc, h =>
    nodup_addNewRecipients l (insertRecipient acc e) (nodup_insertRecipient acc e h)

/-- Membership after folding `Set` insertions. -/
theorem mem_addNewRecipients :
    ∀ (l : List (List Char)) (acc : List (List Char)) (x : List Char),
      x ∈ addNewRecipients acc l ↔ x ∈ acc ∨ x ∈ l
  | [], acc, x => by simp [addNewRecipients]
  | e :: l, acc, x => by
    have ih := mem_addNewRecipients l (insertRecipient acc e) x
    simp only [addNewRecipients, List.foldl_cons] at ih ⊢
    rw [ih, mem_insertRecipient]
    simp only [List.mem_cons]
    tauto

/-- Folding list-of-lists insertions equals folding single insertions over
the flattened list. -/
theorem foldl_addNewRecipients_flatten :
    ∀ (ll : List (List (List Char))) (acc : List (List Char)),
      ll.foldl addNewRecipients acc = (ll.flatten).foldl insertRecipient acc
  | [], acc => rfl
  | l :: ll, acc => by
    simp only [List.foldl_cons, List.flatten_cons, List.foldl_append]
    exact foldl_addNewRecipients_flatten ll (addNewRecipients acc l)

/-- C7: the resolved recipient list is duplicate-free, equals the
insertion-order first-occurrence deduplication of the concatenated
per-address contributions (the `Set` semantics of lines 91–116), and
contains an address exactly when some original recipient maps to it.
Determinism is immediate: `transformRecipients` is a function of
`cfg` and `recipients` alone. -/
theorem C7_resolved_recipients_dedup (cfg : EmailConfig)
    (recipients : List (List Char)) :
    (transformRecipients cfg recipients).Nodup ∧
    transformRecipients cfg recipients =
      insertionDedup ((recipients.map (forwardsFor cfg)).flatten) ∧
    (∀ x, x ∈ transformRecipients cfg recipients ↔
      ∃ o ∈ recipients, x ∈ forwardsFor cfg o) := by
  have heq : transformRecipients cfg recipients =
      (recipients.map (forwardsFor cfg)).foldl addNewRecipients [] := by
    rw [List.foldl_map]
    rfl
  have hded : transformRecipients cfg recipients =
      insertionDedup ((recipients.map (forwardsFor cfg)).flatten) := by
    rw [heq, foldl_addNewRecipients_flatten]
    rfl
  refine ⟨?_, hded, ?_⟩
  · rw [heq]
    clear heq hded
    generalize recipients.map (forwardsFor cfg) = ll
    induction ll using List.reverseRecOn with
    | nil => exact List.nodup_nil
    | append_singleton ll l ih =>
      rw [List.foldl_append]
      exact nodup_addNewRecipients l _ ih
  · intro x
    rw [heq]
    clear heq hded
    induction recipients using List.reverseRecOn with
    | nil => simp
    | append_singleton rs r ih =>
      rw [List.map_append, List.foldl_append]
      simp only [List.map_cons, List.map_nil, List.foldl_cons, List.foldl_nil]
      rw [mem_addNewRecipients, ih]
      constructor
      · rintro (⟨o, ho, hx⟩ | hx)
        · exact ⟨o, by simp [ho], hx⟩
        · exact ⟨r, by simp, hx⟩
      · rintro ⟨o, ho, hx⟩
        rcases List.mem_append.1 ho with ho | ho
        · exact Or.inl ⟨o, ho, hx⟩
        · rcases List.mem_singleton.1 ho with rfl
          exact Or.inr hx

/-- C8: `parseEvent` fails with the invalid-event message exactly when the
event deviates from the expected shape (present `Records` with exactly one
record, source tag `aws:ses`, version `1.0`), and on success extracts the
mail metadata and the recipient list unchanged (hence in their original
order).  `parseEvent` is a pure function: no I/O can occur. -/
theorem C8_parseEvent_exact (event : Option LambdaEvent) :
    (¬ expectedEventShape event → parseEvent event = .error invalidEventMsg) ∧
    (∀ ev rs r, event = some ev → ev.records = some rs → rs = [r] →
      r.eventSource = some (str "aws:ses") → r.eventVersion = some (str "1.0") →
      parseEvent event = .ok (r.mail, r.receipt.recipients)) ∧
    ((parseEvent event).isOk = true ↔ expectedEventShape event) := by
  have hok : ∀ ev rs r, event = some ev → ev.records = some rs → rs = [r] →
      r.eventSource = some (str "aws:ses") → r.eventVersion = some (str "1.0") →
      parseEvent event = .ok (r.mail, r.receipt.recipients) := by
    rintro ev rs r rfl hrec rfl hsrc hver
    simp [parseEvent, hrec, hsrc, hver]
  have herr : ¬ expectedEventShape event → parseEvent event = .error invalidEventMsg := by
    intro hns
    rcases event with _ | ⟨_ | rs⟩
    · rfl
    · rfl
    · match rs with
      | [] => rfl
      | [r] =>
        by_cases h1 : r.eventSource = some (str "aws:ses")
        · by_cases h2 : r.eventVersion = some (str "1.0")
          · exact absurd ⟨_, [r], r, rfl, rfl, rfl, h1, h2⟩ hns
          · simp [parseEvent, h1, h2]
        · simp [parseEvent, h1]
      | a :: b :: t => rfl
  refine ⟨herr, hok, ?_, ?_⟩
  · intro hisok
    by_contra hns
    rw [herr hns] at hisok
    exact Bool.noConfusion hisok
  · rintro ⟨ev, rs, r, rfl, hrec, rfl, hsrc, hver⟩
    rw [hok ev [r] r rfl hrec rfl hsrc hver]
    rfl

/-- C8 witness: the concrete demo event parses successfully to its message
id and its recipient list. -/
theorem C8_parseEvent_exact_witness :
    parseEvent evDemo = .ok (⟨str "mid1"⟩, [str "info@example.com"]) := by
  exact (C8_parseEvent_exact evDemo).2.1 _ _ _ rfl rfl rfl rfl rfl

/-- The only error `parseEvent` ever produces is the invalid-event
message. -/
theorem parseEvent_error_msg : ∀ (event : Option LambdaEvent) (e : List Char),
    parseEvent event = .error e → e = invalidEventMsg := by
  intro event e h
  rcases event with _ | ⟨_ | rs⟩
  · exact (Except.error.inj h).symm
  · exact (Except.error.inj h).symm
  · match rs with
    | [] => exact (Except.error.inj h).symm
    | a :: b :: t => exact (Except.error.inj h).symm
    | [r] =>
      simp only [parseEvent] at h
      split at h
      · exact absurd h (by simp)
      · exact (Except.error.inj h).symm

/-- C9: the pipeline is strictly linear.  The trace of entered stages is
always an initial segment of validate–resolve–fetch–transform–send; the run
reports success only when all five stages ran and the send call was
accepted; every failure is one of the three error messages; and if the S3
fetch fails for the key the fetch stage used, the trace stops at the fetch
stage — in particular no send (and no transform) is attempted. -/
theorem C9_pipeline_linear (event : Option LambdaEvent) (cfg : EmailConfig)
    (s3 : List Char → Except (List Char) (List Char))
    (ses : SendParams → Except (List Char) Unit) :
    ((handler event cfg s3 ses).1.map StageEvt.tag =
       fullStageTags.take (handler event cfg s3 ses).1.length) ∧
    ((handler event cfg s3 ses).2.isOk = true →
       (handler event cfg s3 ses).1.map StageEvt.tag = fullStageTags ∧
       ∃ p, StageEvt.send p ∈ (handler event cfg s3 ses).1 ∧ (ses p).isOk = true) ∧
    (∀ e, (handler event cfg s3 ses).2 = .error e →
       e = invalidEventMsg ∨ e = fetchErrMsg ∨ e = sendErrMsg) ∧
    (∀ k, StageEvt.fetch k ∈ (handler event cfg s3 ses).1 → (s3 k).isOk = false →
       (handler event cfg s3 ses).1.map StageEvt.tag =
         [StageTag.validate, StageTag.resolve, StageTag.fetch]) := by
  cases hp : parseEvent event with
  | error e =>
    have hh : handler event cfg s3 ses = ([StageEvt.validate], .error e) := by
      simp [handler, runSteps, pipelineSteps, stepParseEvent, initialData, hp,
            Except.map]
    rw [hh]
    refine ⟨by simp [fullStageTags, StageEvt.tag], by simp [Except.isOk, Except.toBool], ?_, by simp⟩
    intro e' he'
    simp only [Except.error.injEq] at he'
    exact Or.inl (he' ▸ parseEvent_error_msg event e hp)
  | ok pr =>
    obtain ⟨mail, recs⟩ := pr
    cases hf : s3 (cfg.emailKeyPrefixVal ++ mail.messageId) with
    | error fe =>
      have hh : handler event cfg s3 ses =
          ([StageEvt.validate, StageEvt.resolve,
            StageEvt.fetch (cfg.emailKeyPrefixVal ++ mail.messageId)],
           .error fetchErrMsg) := by
        simp [handler, runSteps, pipelineSteps, stepParseEvent,
              stepTransformRecipients, stepFetchMessage, initialData, hp, hf,
              Except.map]
      rw [hh]
      refine ⟨by simp [fullStageTags, StageEvt.tag], by simp [Except.isOk, Except.toBool], ?_, ?_⟩
      · intro e' he'
        simp only [Except.error.injEq] at he'
        exact Or.inr (Or.inl he'.symm)
      · intro k _ _
        simp [StageEvt.tag]
    | ok bodyBytes =>
      cases hs : ses ⟨transformRecipients cfg recs, none,
          processMessage cfg none bodyBytes⟩ with
      | error se =>
        have hh : handler event cfg s3 ses =
            ([StageEvt.validate, StageEvt.resolve,
              StageEvt.fetch (cfg.emailKeyPrefixVal ++ mail.messageId),
              StageEvt.transform,
              StageEvt.send ⟨transformRecipients cfg recs, none,
                processMessage cfg none bodyBytes⟩],
             .error sendErrMsg) := by
          simp [handler, runSteps, pipelineSteps, stepParseEvent,
                stepTransformRecipients, stepFetchMessage, stepProcessMessage,
                stepSendMessage, initialData, hp, hf, hs, Except.map]
        rw [hh]
        refine ⟨by simp [fullStageTags, StageEvt.tag], by simp [Except.isOk, Except.toBool], ?_, ?_⟩
        · intro e' he'
          simp only [Except.error.injEq] at he'
          exact Or.inr (Or.inr he'.symm)
        · intro k hk hbad
          simp only [List.mem_cons, List.not_mem_nil, or_false] at hk
          rcases hk with h | h | h | h | h
          · exact StageEvt.noConfusion h
          · exact StageEvt.noConfusion h
          · rw [StageEvt.fetch.inj h, hf] at hbad
            simp [Except.isOk, Except.toBool] at hbad
          · exact StageEvt.noConfusion h
          · exact StageEvt.noConfusion h
      | ok u =>
        have hh : handler event cfg s3 ses =
            ([StageEvt.validate, StageEvt.resolve,
              StageEvt.fetch (cfg.emailKeyPrefixVal ++ mail.messageId),
              StageEvt.transform,
              StageEvt.send ⟨transformRecipients cfg recs, none,
                processMessage cfg none bodyBytes⟩],
             .ok ()) := by
          simp [handler, runSteps, pipelineSteps, stepParseEvent,
                stepTransformRecipients, stepFetchMessage, stepProcessMessage,
                stepSendMessage, initialData, hp, hf, hs, Except.map]
        rw [hh]
        refine ⟨by simp [fullStageTags, StageEvt.tag], ?_, by simp, ?_⟩
        · intro _
          refine ⟨by simp [fullStageTags, StageEvt.tag], ?_⟩
          refine ⟨⟨transformRecipients cfg recs, none,
            processMessage cfg none bodyBytes⟩, by simp, ?_⟩
          rw [hs]
          rfl
        · intro k hk hbad
          simp only [List.mem_cons, List.not_mem_nil, or_false] at hk
          rcases hk with h | h | h | h | h
          · exact StageEvt.noConfusion h
          · exact StageEvt.noConfusion h
          · rw [StageEvt.fetch.inj h, hf] at hbad
            simp [Except.isOk, Except.toBool] at hbad
          · exact StageEvt.noConfusion h
          · exact StageEvt.noConfusion h

/-- C9 witness: in a run whose S3 fetch fails, the trace stops at the fetch
stage and the result is the fetch error. -/
theorem C9_pipeline_linear_witness :
    (handler evDemo cfgInfo s3Down sesAccept).1.map StageEvt.tag =
      [StageTag.validate, StageTag.resolve, StageTag.fetch] := by
  exact (C9_pipeline_linear evDemo cfgInfo s3Down sesAccept).2.2.2
    (str "emailsPrefix/mid1") (by decide) (by decide)

/-- A recipient list none of whose members matches any tier resolves to the
empty list. -/
theorem transformRecipients_nil_of_forwards_nil (cfg : EmailConfig)
    (rs : List (List Char)) (h : ∀ a ∈ rs, forwardsFor cfg a = []) :
    transformRecipients cfg rs = [] := by
  have hgen : ∀ (l : List (List Char)) (acc : List (List Char)),
      (∀ a ∈ l, forwardsFor cfg a = []) →
      l.foldl (fun acc orig => addNewRecipients acc (forwardsFor cfg orig)) acc = acc := by
    intro l
    induction l with
    | nil => intro acc _; rfl
    | cons a t ih =>
      intro acc hl
      rw [List.foldl_cons, hl a (by simp)]
      exact ih acc (fun x hx => hl x (by simp [hx]))
  exact hgen rs [] h

/-- C10: when no mapping tier matches any original recipient, resolution
yields the empty list without error, and the pipeline still runs all five
stages: the fetch, transform and send stages are entered, and the send call
receives an empty `Destinations` list (it is attempted regardless of
whether the SES oracle then accepts or rejects it). -/
theorem C10_empty_resolution_still_sends (cfg : EmailConfig)
    (s3 : List Char → Except (List Char) (List Char))
    (ses : SendParams → Except (List Char) Unit) (r : SESRecord)
    (hsrc : r.eventSource = some (str "aws:ses"))
    (hver : r.eventVersion = some (str "1.0"))
    (hmap : ∀ a ∈ r.receipt.recipients, forwardsFor cfg a = [])
    (hfetch : (s3 (cfg.emailKeyPrefixVal ++ r.mail.messageId)).isOk = true) :
    transformRecipients cfg r.receipt.recipients = [] ∧
    (handler (some ⟨some [r]⟩) cfg s3 ses).1.map StageEvt.tag = fullStageTags ∧
    ∃ p, StageEvt.send p ∈ (handler (some ⟨some [r]⟩) cfg s3 ses).1 ∧
      p.destinations = [] := by
  have hres : transformRecipients cfg r.receipt.recipients = [] :=
    transformRecipients_nil_of_forwards_nil cfg r.receipt.recipients hmap
  have hp : parseEvent (some ⟨some [r]⟩) = .ok (r.mail, r.receipt.recipients) := by
    simp [parseEvent, hsrc, hver]
  cases hf : s3 (cfg.emailKeyPrefixVal ++ r.mail.messageId) with
  | error fe =>
    rw [hf] at hfetch
    simp [Except.isOk, Except.toBool] at hfetch
  | ok bodyBytes =>
    have htr : (handler (some ⟨some [r]⟩) cfg s3 ses).1 =
        [StageEvt.validate, StageEvt.resolve,
         StageEvt.fetch (cfg.emailKeyPrefixVal ++ r.mail.messageId),
         StageEvt.transform,
         StageEvt.send ⟨transformRecipients cfg r.receipt.recipients, none,
           processMessage cfg none bodyBytes⟩] := by
      cases hs : ses ⟨transformRecipients cfg r.receipt.recipients, none,
          processMessage cfg none bodyBytes⟩ with
      | error se =>
        simp [handler, runSteps, pipelineSteps, stepParseEvent,
              stepTransformRecipients, stepFetchMessage, stepProcessMessage,
              stepSendMessage, initialData, hp, hf, hs, Except.map]
      | ok u =>
        simp [handler, runSteps, pipelineSteps, stepParseEvent,
              stepTransformRecipients, stepFetchMessage, stepProcessMessage,
              stepSendMessage, initialData, hp, hf, hs, Except.map]
    refine ⟨hres, ?_, ?_⟩
    · rw [htr]
      simp [fullStageTags, StageEvt.tag]
    · refine ⟨⟨transformRecipients cfg r.receipt.recipients, none,
        processMessage cfg none bodyBytes⟩, ?_, hres⟩
      rw [htr]
      simp

/-- C10 witness: with an empty forwarding mapping the demo event resolves
to no destinations, yet a send with an empty destination list is
attempted. -/
theorem C10_empty_resolution_still_sends_witness :
    transformRecipients cfgEmpty [str "info@example.com"] = [] ∧
    (handler evDemo cfgEmpty s3Demo sesAccept).1.map StageEvt.tag = fullStageTags := by
  have h := C10_empty_resolution_still_sends cfgEmpty s3Demo sesAccept
    ⟨some (str "aws:ses"), some (str "1.0"), ⟨str "mid1"⟩, ⟨[str "info@example.com"]⟩⟩
    rfl rfl (by decide) (by decide)
  exact ⟨h.1, h.2.1⟩

/-! ## The amended round-trip property of the header/body split (C4) -/

/-- A well-formed header line is non-empty. -/
theorem wfHeaderLine_ne_nil (l : List Char) (hw : wfHeaderLine l = true) :
    l ≠ [] := by
  rintro rfl
  exact absurd hw (by decide)

/-- The consumed parts of a well-formed header line. -/
theorem wfHeaderLine_parts (l : List Char) (hw : wfHeaderLine l = true) :
    l.takeWhile jsDot ++ l.dropWhile jsDot = l ∧
    (l.takeWhile jsDot).isEmpty = false ∧
    (l.dropWhile jsDot = ['\n'] ∨ l.dropWhile jsDot = ['\r', '\n']) := by
  refine ⟨List.takeWhile_append_dropWhile jsDot l, ?_, ?_⟩
  · simp only [wfHeaderLine, Bool.and_eq_true, Bool.not_eq_true'] at hw
    exact hw.1
  · simp only [wfHeaderLine, wfPhysicalLine, Bool.and_eq_true, Bool.or_eq_true,
      beq_iff_eq] at hw
    exact hw.2

/-- On a well-formed header line followed by anything, one iteration of
`(?:.+\r?\n)*` consumes exactly the line. -/
theorem takeHeaderLine_wfHeader (l rest : List Char) (hw : wfHeaderLine l = true) :
    takeHeaderLine (l ++ rest) = some (l, rest) := by
  obtain ⟨hsplit, hne, hnl⟩ := wfHeaderLine_parts l hw
  have hcd : ∀ x ∈ l.takeWhile jsDot, jsDot x = true :=
    fun x hx => List.mem_takeWhile_imp hx
  have hdn : jsDot '\n' = false := by decide
  have hdr : jsDot '\r' = false := by decide
  have happ : l ++ rest = l.takeWhile jsDot ++ (l.dropWhile jsDot ++ rest) := by
    rw [← List.append_assoc, hsplit]
  have htw : (l ++ rest).takeWhile jsDot = l.takeWhile jsDot := by
    rw [happ, List.takeWhile_append_of_pos hcd]
    rcases hnl with h | h <;> rw [h] <;> simp [hdn, hdr]
  have hdw : (l ++ rest).dropWhile jsDot = l.dropWhile jsDot ++ rest := by
    rw [happ, List.dropWhile_append_of_pos hcd]
    rcases hnl with h | h <;> rw [h] <;> simp [hdn, hdr]
  rcases hnl with h | h <;>
    · simp only [takeHeaderLine, htw, hdw, hne, h, Bool.false_eq_true,
        if_false, List.cons_append, List.nil_append]
      rw [show l.takeWhile jsDot ++ _ = l from h ▸ hsplit]

/-- On a block of well-formed header lines followed by text that does not
begin with a `.`-character, the greedy `(?:.+\r?\n)*` consumes exactly the
block. -/
theorem takeHeaderLines_wf (ls : List (List Char)) :
    (∀ l ∈ ls, wfHeaderLine l = true) →
    ∀ (tail : List Char), jsDot (tail.headD '\n') = false →
    ∀ fuel, ls.flatten.length < fuel →
      takeHeaderLines fuel (ls.flatten ++ tail) = (ls.flatten, tail) := by
  induction ls with
  | nil =>
    intro _ tail htail fuel _
    match fuel with
    | 0 => rfl
    | fuel + 1 =>
      have hline : takeHeaderLine tail = none := by
        match tail with
        | [] => rfl
        | hd :: t =>
          simp only [List.headD_cons] at htail
          simp [takeHeaderLine, List.takeWhile_cons, htail]
      simp [takeHeaderLines, hline]
  | cons l tail2 ih =>
    intro hls tail htail fuel hfuel
    have hwl : wfHeaderLine l = true := hls l (by simp)
    have hlen : 0 < l.length :=
      List.length_pos.2 (wfHeaderLine_ne_nil l hwl)
    match fuel with
    | 0 => exact absurd hfuel (Nat.not_lt_zero _)
    | fuel + 1 =>
      have hassoc : (l :: tail2).flatten ++ tail = l ++ (tail2.flatten ++ tail) := by
        simp [List.flatten_cons, List.append_assoc]
      have hrec := ih (fun x hx => hls x (by simp [hx])) tail htail fuel
        (by simp only [List.flatten_cons, List.length_append] at hfuel; omega)
      rw [hassoc]
      simp only [takeHeaderLines, takeHeaderLine_wfHeader l _ hwl, hrec,
        List.flatten_cons, List.append_assoc]

/-- `(?:.*\s+)*` consumes everything when the text ends in a whitespace
character. -/
theorem wsTailLen_ends_ws (b : List Char) (ch : Char) (h : isJsWs ch = true) :
    wsTailLen (b ++ [ch]) = b.length + 1 := by
  induction b with
  | nil => simp [wsTailLen, h]
  | cons x b ih => simp [wsTailLen, ih]

/-- `wsTail` is the identity on empty text and on text ending in a
whitespace character. -/
theorem wsTail_full (body : List Char)
    (h : body = [] ∨ ∃ b ch, body = b ++ [ch] ∧ isJsWs ch = true) :
    wsTail body = body := by
  rcases h with rfl | ⟨b, ch, rfl, hch⟩
  · rfl
  · rw [wsTail, wsTailLen_ends_ws b ch hch]
    have hlen : (b ++ [ch]).length = b.length + 1 := by simp
    rw [← hlen, List.take_length]

/-- C4 amended: for raw messages of the well-formed shape — one or more
non-empty newline-terminated header lines, a blank line, and a body that is
empty or ends in a whitespace character — the split of line 160 returns
exactly (header block, blank line + body), and concatenating header and
body reproduces the original bytes.  (The counterexamples show this fails
for other byte sequences.) -/
theorem C4_amended_split_concat_roundtrip (ls : List (List Char))
    (blank body : List Char)
    (hls : ∀ l ∈ ls, wfHeaderLine l = true) (hne : ls ≠ [])
    (hblank : blank = ['\n'] ∨ blank = ['\r', '\n'])
    (hbody : body = [] ∨ ∃ b ch, body = b ++ [ch] ∧ isJsWs ch = true) :
    splitMessage (ls.flatten ++ (blank ++ body)) = (ls.flatten, blank ++ body) ∧
    (splitMessage (ls.flatten ++ (blank ++ body))).1 ++
      (splitMessage (ls.flatten ++ (blank ++ body))).2 =
      ls.flatten ++ (blank ++ body) := by
  have hflen : ls.flatten.length < (ls.flatten ++ (blank ++ body)).length + 1 := by
    simp only [List.length_append]
    omega
  have htail : jsDot ((blank ++ body).headD '\n') = false := by
    rcases hblank with rfl | rfl <;>
      simp only [List.cons_append, List.nil_append, List.headD_cons] <;> decide
  have hlines := takeHeaderLines_wf ls hls (blank ++ body) htail
    ((ls.flatten ++ (blank ++ body)).length + 1) hflen
  have hws : wsTail body = body := wsTail_full body hbody
  have hmatch : matchAt ((ls.flatten ++ (blank ++ body)).length + 1)
      (ls.flatten ++ (blank ++ body)) = some (ls.flatten, blank ++ body) := by
    rcases hblank with rfl | rfl <;>
      · simp only [List.cons_append, List.nil_append] at hlines ⊢
        simp only [matchAt, hlines, hws]
  have hfind : findMatch ((ls.flatten ++ (blank ++ body)).length + 1)
      (ls.flatten ++ (blank ++ body)) = some (ls.flatten, blank ++ body) := by
    simp only [findMatch, hmatch]
  have hg1 : ls.flatten.isEmpty = false := by
    match ls, hne with
    | l :: tl, _ =>
      have hlne := wfHeaderLine_ne_nil l (hls l (by simp))
      match l, hlne with
      | x :: l', _ => rfl
  have hg2 : (blank ++ body).isEmpty = false := by
    rcases hblank with rfl | rfl <;> rfl
  have hsp : splitMessage (ls.flatten ++ (blank ++ body)) =
      (ls.flatten, blank ++ body) := by
    simp only [splitMessage, hfind, hg1, hg2, Bool.false_eq_true, if_false]
  exact ⟨hsp, by rw [hsp]⟩

/-- C4 amended, witness: a concrete well-formed message round-trips. -/
theorem C4_amended_split_concat_roundtrip_witness :
    (splitMessage (str "A: b\n\nHello\n")).1 ++
      (splitMessage (str "A: b\n\nHello\n")).2 = str "A: b\n\nHello\n" := by
  have h := C4_amended_split_concat_roundtrip [str "A: b\n"] ['\n'] (str "Hello\n")
    (by decide) (by decide) (Or.inl rfl)
    (Or.inr ⟨str "Hello", '\n', by decide, by decide⟩)
  have e : [str "A: b\n"].flatten ++ (['\n'] ++ str "Hello\n") =
      str "A: b\n\nHello\n" := by decide
  rw [← e]
  exact h.2

/-! ## The amended header-removal property (C5) -/

/-- A case-insensitive prefix of a string is also one of any extension. -/
theorem startsWithCI_append (p : List Char) : ∀ (l z : List Char),
    startsWithCI p l = true → startsWithCI p (l ++ z) = true := by
  induction p with
  | nil => intro l z _; rfl
  | cons a ps ih =>
    intro l z h
    match l with
    | [] => exact absurd h (by simp [startsWithCI])
    | c :: cs =>
      simp only [List.cons_append, startsWithCI, Bool.and_eq_true] at h ⊢
      exact ⟨h.1, ih cs z h.2⟩

/-- Lowercasing fixes the four line terminators. -/
theorem lowerChar_lineTerm (c : Char) (h : isLineTerm c = true) :
    lowerChar c = c := by
  simp only [isLineTerm, Bool.or_eq_true, beq_iff_eq] at h
  rcases h with ((rfl | rfl) | h) | h
  · decide
  · decide
  · have hc : c = '\u2028' := Char.ext (by rw [h]; rfl)
    rw [hc]
    decide
  · have hc : c = '\u2029' := Char.ext (by rw [h]; rfl)
    rw [hc]
    decide

/-- A character whose lowercase form is a `.`-character cannot
case-insensitively equal a line terminator. -/
theorem CI_head_mismatch_term (a c : Char) (ha : jsDot (lowerChar a) = true)
    (hc : isLineTerm c = true) : (lowerChar a == lowerChar c) = false := by
  rw [lowerChar_lineTerm c hc]
  by_contra hne
  rw [Bool.not_eq_false, beq_iff_eq] at hne
  rw [hne] at ha
  simp [jsDot, hc] at ha

/-- The components of a `nameOkForLine` name. -/
theorem nameOkForLine_parts (name : List Char) (hn : nameOkForLine name = true) :
    name ≠ [] ∧ ∀ a ∈ name, jsDot (lowerChar a) = true := by
  simp only [nameOkForLine, Bool.and_eq_true, Bool.not_eq_true',
    List.isEmpty_eq_false, List.all_eq_true, ne_eq] at hn
  exact hn

/-- A `nameOkForLine` name never matches case-insensitively at a position
whose first character is a line terminator. -/
theorem startsWithCI_term_false (name : List Char) (hn : nameOkForLine name = true)
    (c : Char) (hc : isLineTerm c = true) (cs : List Char) :
    startsWithCI name (c :: cs) = false := by
  obtain ⟨hne, hdots⟩ := nameOkForLine_parts name hn
  match name, hne with
  | a :: ps, _ =>
    simp only [startsWithCI,
      CI_head_mismatch_term a c (hdots a (by simp)) hc, Bool.false_and]

/-- A `nameOkForLine` name matching at the start of `line ++ z`, where
`line` is a well-formed physical line, already matches within the line's
`.`-content; in particular the match cannot reach the terminating
newline. -/
theorem startsWithCI_content (name : List Char) :
    ∀ (c nl z : List Char), (∀ a ∈ name, jsDot (lowerChar a) = true) →
      (∀ x ∈ c, jsDot x = true) →
      (nl = ['\n'] ∨ nl = ['\r', '\n']) →
      startsWithCI name (c ++ nl ++ z) = true →
      startsWithCI name c = true ∧ name.length ≤ c.length := by
  induction name with
  | nil => intro c nl z _ _ _ _; exact ⟨rfl, Nat.zero_le _⟩
  | cons a ps ih =>
    intro c nl z hdots hc hnl h
    match c with
    | [] =>
      exfalso
      rcases hnl with rfl | rfl <;>
        simp only [List.nil_append, List.cons_append, startsWithCI,
          CI_head_mismatch_term a '\n' (hdots a (List.mem_cons_self a ps)) (by decide),
          CI_head_mismatch_term a '\r' (hdots a (List.mem_cons_self a ps)) (by decide),
          Bool.false_and, Bool.false_eq_true] at h
    | c₀ :: c' =>
      simp only [List.cons_append, startsWithCI, Bool.and_eq_true] at h ⊢
      have hps := ih c' nl z (fun x hx => hdots x (List.mem_cons_of_mem a hx))
        (fun x hx => hc x (List.mem_cons_of_mem c₀ hx)) hnl h.2
      exact ⟨⟨h.1, hps.1⟩, Nat.succ_le_succ hps.2⟩

/-- When a `nameOkForLine` name matches at the start of a well-formed
physical line, the removal regex consumes exactly that line. -/
theorem matchHeaderLineAt_hit (name l rest : List Char)
    (hn : nameOkForLine name = true) (hl : wfPhysicalLine l = true)
    (hs : startsWithCI name l = true) :
    matchHeaderLineAt name (l ++ rest) = some rest := by
  have hsplit : l.takeWhile jsDot ++ l.dropWhile jsDot = l :=
    List.takeWhile_append_dropWhile jsDot l
  have hnl : l.dropWhile jsDot = ['\n'] ∨ l.dropWhile jsDot = ['\r', '\n'] := by
    simp only [wfPhysicalLine, Bool.or_eq_true, beq_iff_eq] at hl
    exact hl
  have hcd : ∀ x ∈ l.takeWhile jsDot, jsDot x = true :=
    fun x hx => List.mem_takeWhile_imp hx
  have hs' : startsWithCI name (l.takeWhile jsDot ++ l.dropWhile jsDot ++ rest) = true := by
    rw [hsplit]
    exact startsWithCI_append name l rest hs
  obtain ⟨hname_ne, hdots⟩ := nameOkForLine_parts name hn
  obtain ⟨hsc, hlen⟩ := startsWithCI_content name (l.takeWhile jsDot)
    (l.dropWhile jsDot) rest hdots hcd hnl hs'
  have hswt : startsWithCI name (l ++ rest) = true := startsWithCI_append name l rest hs
  -- compute the drop after the name
  have htklen : (List.take name.length (l.takeWhile jsDot)).length = name.length := by
    rw [List.length_take]
    exact Nat.min_eq_left hlen
  have hre : l ++ rest =
      List.take name.length (l.takeWhile jsDot) ++
        (List.drop name.length (l.takeWhile jsDot) ++ (l.dropWhile jsDot ++ rest)) := by
    rw [← List.append_assoc, List.take_append_drop, ← List.append_assoc, hsplit]
  have hdropped := List.drop_left (List.take name.length (l.takeWhile jsDot))
    (List.drop name.length (l.takeWhile jsDot) ++ (l.dropWhile jsDot ++ rest))
  rw [htklen] at hdropped
  have hdrop : (l ++ rest).drop name.length =
      List.drop name.length (l.takeWhile jsDot) ++ (l.dropWhile jsDot ++ rest) := by
    rw [hre, hdropped]
  -- the dropWhile then skips the rest of the content and stops at the newline
  have hdropdots : ∀ x ∈ List.drop name.length (l.takeWhile jsDot), jsDot x = true :=
    fun x hx => hcd x (List.drop_subset _ _ hx)
  have hdw : ((l ++ rest).drop name.length).dropWhile jsDot =
      l.dropWhile jsDot ++ rest := by
    rw [hdrop, List.dropWhile_append_of_pos hdropdots]
    rcases hnl with h | h <;> rw [h] <;>
      simp [List.dropWhile_cons, show jsDot '\n' = false from by decide,
        show jsDot '\r' = false from by decide]
  have hnlsplit : nlSplit (l.dropWhile jsDot ++ rest) = some (l.dropWhile jsDot, rest) := by
    rcases hnl with h | h <;> rw [h] <;> rfl
  simp only [matchHeaderLineAt, hswt, if_true, hdw, hnlsplit]

/-- At a position whose first character is a line terminator, the removal
regex cannot match. -/
theorem matchHeaderLineAt_term_none (name : List Char)
    (hn : nameOkForLine name = true) (c : Char) (hc : isLineTerm c = true)
    (cs : List Char) : matchHeaderLineAt name (c :: cs) = none := by
  simp only [matchHeaderLineAt, startsWithCI_term_false name hn c hc cs,
    Bool.false_eq_true, if_false]

/-- The removal scanner copies a run of `.`-characters verbatim while
outside an anchor position. -/
theorem removeHeaderGo_skip_dots (name : List Char) :
    ∀ (w : List Char), (∀ x ∈ w, jsDot x = true) →
    ∀ (fuel : Nat) (cs : List Char), w.length + cs.length < fuel →
      removeHeaderGo name fuel false (w ++ cs) =
        w ++ removeHeaderGo name (fuel - w.length) false cs := by
  intro w
  induction w with
  | nil => intro _ fuel cs _; simp
  | cons x w ih =>
    intro hw fuel cs hfuel
    match fuel with
    | 0 => exact absurd hfuel (Nat.not_lt_zero _)
    | fuel + 1 =>
      have hx : isLineTerm x = false := by
        have hd := hw x (List.mem_cons_self x w)
        simpa [jsDot] using hd
      have hrec := ih (fun y hy => hw y (List.mem_cons_of_mem x hy)) fuel cs
        (by simp only [List.length_cons] at hfuel; omega)
      have harith : fuel + 1 - (w.length + 1) = fuel - w.length := by omega
      simp only [List.cons_append, removeHeaderGo, hx, hrec, harith,
        List.length_cons, Bool.false_eq_true, if_false]

/-- The removal scanner copies a blank `\n` / `\r\n` verbatim (no match can
start on a line terminator) and lands on an anchor. -/
theorem removeHeaderGo_skip_nl (name : List Char) (hn : nameOkForLine name = true) :
    ∀ (anchor : Bool) (nl : List Char), (nl = ['\n'] ∨ nl = ['\r', '\n']) →
    ∀ (fuel : Nat) (cs : List Char), nl.length + cs.length < fuel →
      removeHeaderGo name fuel anchor (nl ++ cs) =
        nl ++ removeHeaderGo name (fuel - nl.length) true cs := by
  intro anchor nl hnl fuel cs hfuel
  rcases hnl with rfl | rfl
  · match fuel with
    | 0 => exact absurd hfuel (Nat.not_lt_zero _)
    | fuel + 1 =>
      match anchor with
      | true =>
        simp [removeHeaderGo, matchHeaderLineAt_term_none name hn '\n' (by decide) cs,
          show isLineTerm '\n' = true from by decide]
      | false =>
        simp [removeHeaderGo, show isLineTerm '\n' = true from by decide]
  · match fuel with
    | 0 => exact absurd hfuel (Nat.not_lt_zero _)
    | 1 => exact absurd hfuel (by simp)
    | fuel + 2 =>
      have h2 : removeHeaderGo name (fuel + 1) true ('\n' :: cs) =
          '\n' :: removeHeaderGo name fuel true cs := by
        simp [removeHeaderGo, matchHeaderLineAt_term_none name hn '\n' (by decide) cs,
          show isLineTerm '\n' = true from by decide]
      match anchor with
      | true =>
        simp [removeHeaderGo, matchHeaderLineAt_term_none name hn '\r' (by decide)
          ('\n' :: cs), matchHeaderLineAt_term_none name hn '\n' (by decide) cs,
          h2, show isLineTerm '\r' = true from by decide,
          show isLineTerm '\n' = true from by decide]
      | false =>
        simp [removeHeaderGo, h2,
          matchHeaderLineAt_term_none name hn '\n' (by decide) cs,
          show isLineTerm '\r' = true from by decide,
          show isLineTerm '\n' = true from by decide]

/-- The removal scanner copies a whole well-formed physical line that does
not start with the header name, landing on the anchor after its newline. -/
theorem removeHeaderGo_skip_line (name : List Char) (hn : nameOkForLine name = true)
    (l : List Char) (hl : wfPhysicalLine l = true)
    (hno : startsWithCI name l = false) :
    ∀ (fuel : Nat) (cs : List Char), l.length + cs.length < fuel →
      removeHeaderGo name fuel true (l ++ cs) =
        l ++ removeHeaderGo name (fuel - l.length) true cs := by
  intro fuel cs hfuel
  have hsplit : l.takeWhile jsDot ++ l.dropWhile jsDot = l :=
    List.takeWhile_append_dropWhile jsDot l
  have hnl : l.dropWhile jsDot = ['\n'] ∨ l.dropWhile jsDot = ['\r', '\n'] := by
    simp only [wfPhysicalLine, Bool.or_eq_true, beq_iff_eq] at hl
    exact hl
  have hcd : ∀ x ∈ l.takeWhile jsDot, jsDot x = true :=
    fun x hx => List.mem_takeWhile_imp hx
  have hmnone : matchHeaderLineAt name (l ++ cs) = none := by
    simp only [matchHeaderLineAt]
    have hsfalse : startsWithCI name (l ++ cs) = false := by
      by_contra hne
      rw [Bool.not_eq_false] at hne
      have hs' : startsWithCI name
          (l.takeWhile jsDot ++ l.dropWhile jsDot ++ cs) = true := by
        rw [hsplit]
        exact hne
      obtain ⟨hsc, _⟩ := startsWithCI_content name (l.takeWhile jsDot)
        (l.dropWhile jsDot) cs (nameOkForLine_parts name hn).2 hcd hnl hs'
      have : startsWithCI name l = true := by
        rw [← hsplit]
        exact startsWithCI_append name (l.takeWhile jsDot) (l.dropWhile jsDot) hsc
      rw [this] at hno
      exact Bool.noConfusion hno
    rw [hsfalse]
    simp
  cases hc : l.takeWhile jsDot with
  | nil =>
    -- the line is a bare newline; defer to the blank-line lemma
    have hlnl : l = l.dropWhile jsDot := by
      conv_lhs => rw [← hsplit, hc]
      rw [List.nil_append]
    rw [hlnl]
    exact removeHeaderGo_skip_nl name hn true (l.dropWhile jsDot) hnl fuel cs
      (by rw [← hlnl]; exact hfuel)
  | cons c₀ c' =>
    match fuel with
    | 0 => exact absurd hfuel (Nat.not_lt_zero _)
    | fuel + 1 =>
      have hlform : l ++ cs = c₀ :: (c' ++ (l.dropWhile jsDot ++ cs)) := by
        conv_lhs => rw [← hsplit, hc]
        simp [List.append_assoc]
      have hc₀dot : jsDot c₀ = true := hcd c₀ (by rw [hc]; exact List.mem_cons_self c₀ c')
      have hc₀ : isLineTerm c₀ = false := by simpa [jsDot] using hc₀dot
      have hc'dots : ∀ x ∈ c', jsDot x = true := by
        intro x hx
        exact hcd x (by rw [hc]; exact List.mem_cons_of_mem c₀ hx)
      have hlen : l.length = c'.length + 1 + (l.dropWhile jsDot).length := by
        conv_lhs => rw [← hsplit, hc]
        simp [Nat.add_comm, Nat.add_assoc, Nat.add_left_comm]
      have hdots := removeHeaderGo_skip_dots name c' hc'dots fuel
        (l.dropWhile jsDot ++ cs)
        (by simp only [List.length_append] at *; omega)
      have hnlstep := removeHeaderGo_skip_nl name hn false (l.dropWhile jsDot) hnl
        (fuel - c'.length) cs
        (by rcases hnl with h | h <;> simp only [h, List.length_cons,
              List.length_nil] at * <;> omega)
      have hmnone' : matchHeaderLineAt name (c₀ :: (c' ++ (l.dropWhile jsDot ++ cs))) = none := by
        rw [← hlform]
        exact hmnone
      rw [hlform]
      simp only [removeHeaderGo, hc₀, hmnone', Bool.false_eq_true, if_false,
        eq_self_iff_true, if_true]
      rw [hdots, hnlstep]
      have harith : fuel - c'.length - (l.dropWhile jsDot).length =
          fuel + 1 - l.length := by omega
      rw [harith]
      conv_rhs => rw [← hsplit, hc]
      simp only [List.cons_append, List.append_assoc, List.cons.injEq, true_and]
      congr 3
      simp only [List.length_cons, List.length_append]
      omega

/-- The removal scan on a block of physical lines keeps exactly the lines
that do not start, case-insensitively, with the header name. -/
theorem removeHeaderGo_flatten (name : List Char) (hn : nameOkForLine name = true) :
    ∀ (ls : List (List Char)), (∀ l ∈ ls, wfPhysicalLine l = true) →
    ∀ (fuel : Nat), ls.flatten.length < fuel →
      removeHeaderGo name fuel true ls.flatten =
        (ls.filter (fun l => !(startsWithCI name l))).flatten := by
  intro ls
  induction ls with
  | nil =>
    intro _ fuel _
    match fuel with
    | 0 => rfl
    | fuel + 1 => rfl
  | cons l tl ih =>
    intro hls fuel hfuel
    have hwl : wfPhysicalLine l = true := hls l (List.mem_cons_self l tl)
    have hlne : l ≠ [] := by
      intro h
      rw [h] at hwl
      exact absurd hwl (by decide)
    have hls' : ∀ x ∈ tl, wfPhysicalLine x = true :=
      fun x hx => hls x (List.mem_cons_of_mem l hx)
    by_cases hsw : startsWithCI name l = true
    · match fuel with
      | 0 => exact absurd hfuel (Nat.not_lt_zero _)
      | fuel + 1 =>
        obtain ⟨x, l', rfl⟩ : ∃ x l', l = x :: l' := by
          match l, hlne with
          | x :: l', _ => exact ⟨x, l', rfl⟩
        have hhit : matchHeaderLineAt name (x :: (l' ++ tl.flatten)) = some tl.flatten :=
          matchHeaderLineAt_hit name (x :: l') tl.flatten hn hwl hsw
        have hrec := ih hls' fuel (by
          simp only [List.flatten_cons, List.length_append, List.length_cons] at hfuel
          omega)
        simp only [List.flatten_cons, List.cons_append, removeHeaderGo, hhit,
          eq_self_iff_true, if_true, hrec, List.filter_cons, hsw, Bool.not_true,
          Bool.false_eq_true, if_false]
    · have hno : startsWithCI name l = false := by
        cases h : startsWithCI name l
        · rfl
        · exact absurd h hsw
      have hstep := removeHeaderGo_skip_line name hn l hwl hno fuel tl.flatten (by
        simp only [List.flatten_cons, List.length_append] at hfuel
        exact hfuel)
      have hrec := ih hls' (fuel - l.length) (by
        have hlpos : 0 < l.length := List.length_pos.2 hlne
        simp only [List.flatten_cons, List.length_append] at hfuel
        omega)
      rw [List.flatten_cons, hstep, hrec]
      simp [List.filter_cons, hno]

/-- `header.replace(/^name:[\t ]?(.*)\r?\n/mgi, '')` on a block of physical
lines is the filter dropping the lines that start with the name. -/
theorem removeHeader_flatten (name : List Char) (hn : nameOkForLine name = true)
    (ls : List (List Char)) (hls : ∀ l ∈ ls, wfPhysicalLine l = true) :
    removeHeader name ls.flatten =
      (ls.filter (fun l => !(startsWithCI name l))).flatten :=
  removeHeaderGo_flatten name hn ls hls (ls.flatten.length + 1) (Nat.lt_succ_self _)

/-- C5 amended: on every header block made of physical lines, the three
removal passes of lines 204–211 delete exactly the physical lines starting
case-insensitively with `return-path:`, `sender:` or `message-id:` — one
line per match.  In particular every other line, including a folded
continuation line of a removed header (it begins with whitespace, not with
the header name), survives in place; the counterexample shows such an
orphaned continuation line. -/
theorem C5_amended_removes_physical_lines (ls : List (List Char))
    (hls : ∀ l ∈ ls, wfPhysicalLine l = true) :
    removeHeader (str "message-id:")
      (removeHeader (str "sender:")
        (removeHeader (str "return-path:") ls.flatten)) =
      (((ls.filter (fun l => !(startsWithCI (str "return-path:") l))).filter
          (fun l => !(startsWithCI (str "sender:") l))).filter
        (fun l => !(startsWithCI (str "message-id:") l))).flatten := by
  have h1 := removeHeader_flatten (str "return-path:") (by decide) ls hls
  have hls1 : ∀ l ∈ ls.filter (fun l => !(startsWithCI (str "return-path:") l)),
      wfPhysicalLine l = true :=
    fun l hl => hls l (List.mem_of_mem_filter hl)
  have h2 := removeHeader_flatten (str "sender:") (by decide) _ hls1
  have hls2 : ∀ l ∈ (ls.filter (fun l => !(startsWithCI (str "return-path:") l))).filter
      (fun l => !(startsWithCI (str "sender:") l)), wfPhysicalLine l = true :=
    fun l hl => hls1 l (List.mem_of_mem_filter hl)
  have h3 := removeHeader_flatten (str "message-id:") (by decide) _ hls2
  rw [h1, h2, h3]

/-- C5 amended, witness: the folded continuation line of a removed
`Return-Path:` header and the unrelated `X:` header survive; the
`Return-Path:` and `Sender:` lines themselves are removed. -/
theorem C5_amended_removes_physical_lines_witness :
    removeHeader (str "message-id:")
      (removeHeader (str "sender:")
        (removeHeader (str "return-path:")
          (str "Return-Path: <a@b>\n\tfolded\nSender: s\nX: y\n"))) =
      str "\tfolded\nX: y\n" := by
  have hflat : str "Return-Path: <a@b>\n\tfolded\nSender: s\nX: y\n" =
      [str "Return-Path: <a@b>\n", str "\tfolded\n", str "Sender: s\n",
       str "X: y\n"].flatten := by decide
  rw [hflat, C5_amended_removes_physical_lines _ (by decide)]
  decide

end SESForwarder
